import Mathlib

/-!
Verification of `src/algorithm.py` (testAlgo).

The Python module draws pseudo-random coordinate pairs, sums them per
iteration, derives a radius and a (deliberately degenerate) angle, and
serializes the records to CSV.

Embedding choices:
* Python floats are modelled as real numbers (`ℝ`).
* The seeded Mersenne-Twister stream `rng = random.Random(seed)` is
  modelled as an explicit sequence `u : ℕ → ℝ` of unit draws, where
  `u n` is the value of the n-th call to `rng.random()`; CPython's
  `rng.uniform(a, b)` returns `a + (b - a) * rng.random()`, which is
  the definition `uniform` below.  A genuine stream satisfies
  `0 ≤ u n < 1` for all `n`; theorems that need that bound take it as a
  hypothesis.
* Loops are translated to structural recursion threading the
  accumulators (`final_x`, `final_y`) and the position in the random
  stream, exactly following the order in which the Python code consumes
  draws (x before y on every repetition).
-/

namespace TestAlgo

/-- Model of C/Python `math.atan2 y x` on the reals (no signed zero):
the angle of the point `(x, y)`, with `atan2 0 0 = 0` as CPython
returns `0.0` for `atan2(0.0, 0.0)`. -/
noncomputable def atan2 (y x : ℝ) : ℝ :=
  if 0 < x then Real.arctan (y / x)
  else if x < 0 then
    (if 0 ≤ y then Real.arctan (y / x) + Real.pi
     else Real.arctan (y / x) - Real.pi)
  else
    (if 0 < y then Real.pi / 2
     else if y < 0 then -(Real.pi / 2)
     else 0)

/-- Model of `math.hypot x y`: the Euclidean norm `sqrt (x² + y²)`. -/
noncomputable def hypot (x y : ℝ) : ℝ :=
  Real.sqrt (x ^ 2 + y ^ 2)

/-- `IterationPairs` dataclass of `algorithm.py`: the derived Cartesian
and polar pairs of one iteration. -/
structure IterationPairs where
  iteration : ℤ
  final_x : ℝ
  final_y : ℝ
  radius : ℝ
  angle : ℝ

/-- CPython `random.Random.uniform lower upper` applied to a unit draw
`t = rng.random()`: it returns `lower + (upper - lower) * t`. -/
def uniform (lower upper : ℝ) (t : ℝ) : ℝ :=
  lower + (upper - lower) * t

/-- Inner loop of `generate_random_pairs`
(`for _ in range(samples_per_iteration): ...`): starting at position `c`
of the random stream with accumulators `fx`, `fy`, perform `n`
repetitions, each drawing `x` then `y` and accumulating both; returns
the final accumulators together with the next unused stream position. -/
noncomputable def sampleLoop (lower upper : ℝ) (u : ℕ → ℝ) :
    ℕ → ℕ → ℝ → ℝ → ℝ × ℝ × ℕ
  | c, 0, fx, fy => (fx, fy, c)
  | c, n + 1, fx, fy =>
      sampleLoop lower upper u (c + 2) n
        (fx + uniform lower upper (u c))
        (fy + uniform lower upper (u (c + 1)))

/-- Outer loop of `generate_random_pairs`
(`for iteration in range(1, iterations + 1): ...`): at stream position
`c`, with current 1-based index `iteration` and `remaining` iterations
left, build the list of derived records, computing
`radius = math.hypot final_x final_y` and
`angle = math.atan2 final_y final_y` exactly as lines 64–65 do. -/
noncomputable def iterLoop (lower upper : ℝ) (u : ℕ → ℝ) (samples : ℕ) :
    ℕ → ℤ → ℕ → List IterationPairs
  | _, _, 0 => []
  | c, iteration, r + 1 =>
      let s := sampleLoop lower upper u c samples 0 0
      ⟨iteration, s.1, s.2.1, hypot s.1 s.2.1, atan2 s.2.1 s.2.1⟩ ::
        iterLoop lower upper u samples s.2.2 (iteration + 1) r

/-- `generate_random_pairs` of `algorithm.py`.  `iterations` and
`samples_per_iteration` are Python ints (`ℤ`); `range(1, iterations+1)`
has `iterations.toNat` elements and `range(samples_per_iteration)` has
`samples_per_iteration.toNat` elements, which is what `Int.toNat`
yields.  `value_range` is unpacked to `(lower, upper)`; `u` is the unit
stream of the generator seeded in line 49, consumed from position 0. -/
noncomputable def generate_random_pairs (iterations samples_per_iteration : ℤ)
    (value_range : ℝ × ℝ) (u : ℕ → ℝ) : List IterationPairs :=
  iterLoop value_range.1 value_range.2 u samples_per_iteration.toNat 0 1
    iterations.toNat

/-- The error conditions a Python call can surface. -/
inductive PyError
  | invalidArgument

/-- Result of *calling* `generate_random_pairs`: either a normal return
or a raised error.  The body of `generate_random_pairs`
(lines 40–71) contains no `raise` and no validation of its arguments,
and none of the operations it performs (`random.Random`, tuple
unpacking, `range`, `rng.uniform`, float arithmetic, `math.hypot`,
`math.atan2`, `list.append`) raises for any argument values, so every
call returns normally. -/
noncomputable def generate_random_pairs_call (iterations samples_per_iteration : ℤ)
    (value_range : ℝ × ℝ) (u : ℕ → ℝ) : Except PyError (List IterationPairs) :=
  Except.ok (generate_random_pairs iterations samples_per_iteration value_range u)

/-- Closed form of the x-accumulator: the sum of the
`samples` x-draws of one iteration whose first draw sits at stream
position `c` (the x-draw of repetition `j` is draw `c + 2j`). -/
noncomputable def finalX (lower upper : ℝ) (u : ℕ → ℝ) (samples c : ℕ) : ℝ :=
  ∑ j ∈ Finset.range samples, uniform lower upper (u (c + 2 * j))

/-- Closed form of the y-accumulator: the y-draw of repetition `j` is
draw `c + 2j + 1`, immediately after the corresponding x-draw. -/
noncomputable def finalY (lower upper : ℝ) (u : ℕ → ℝ) (samples c : ℕ) : ℝ :=
  ∑ j ∈ Finset.range samples, uniform lower upper (u (c + 2 * j + 1))

/-- Closed form of one record: iteration index together with the summed
pair and the two derived fields, for an iteration whose draws start at
stream position `c`. -/
noncomputable def mkRecord (lower upper : ℝ) (u : ℕ → ℝ) (samples c : ℕ)
    (iteration : ℤ) : IterationPairs :=
  ⟨iteration, finalX lower upper u samples c, finalY lower upper u samples c,
    hypot (finalX lower upper u samples c) (finalY lower upper u samples c),
    atan2 (finalY lower upper u samples c) (finalY lower upper u samples c)⟩

/-- One cell of a CSV row as handed to Python's `csv.writer`: a plain
string (the header cells), a Python int written verbatim
(`pair.iteration`), or a float rendered by an f-string in fixed-point
notation with the given number of fractional digits (the format spec
`.10f` used in lines 95–98 renders exactly 10 digits after the decimal
point). -/
inductive CsvField
  | str : String → CsvField
  | int : ℤ → CsvField
  | fixed : ℝ → ℕ → CsvField

/-- Header row written by `write_pairs_to_csv` (lines 81–89). -/
def csvHeader : List CsvField :=
  [CsvField.str "iteration", CsvField.str "cartesian_x",
   CsvField.str "cartesian_y", CsvField.str "polar_radius",
   CsvField.str "polar_angle"]

/-- Row written for one record (lines 91–100): the iteration index
verbatim and the four float fields each formatted with the spec
`.10f`. -/
noncomputable def recordRow (pair : IterationPairs) : List CsvField :=
  [CsvField.int pair.iteration,
   CsvField.fixed pair.final_x 10,
   CsvField.fixed pair.final_y 10,
   CsvField.fixed pair.radius 10,
   CsvField.fixed pair.angle 10]

/-- `write_pairs_to_csv` of `algorithm.py`, modelled at the level of
the rows it emits: the header row followed by one row per record, in
the order of the input sequence.  (The `mkdir`/file-handle plumbing in
lines 77–80 is I/O outside the data model.) -/
noncomputable def write_pairs_to_csv (pairs : List IterationPairs) :
    List (List CsvField) :=
  csvHeader :: pairs.map recordRow

theorem sampleLoop_eq (lower upper : ℝ) (u : ℕ → ℝ) :
    ∀ (n c : ℕ) (fx fy : ℝ),
      sampleLoop lower upper u c n fx fy =
        (fx + finalX lower upper u n c, fy + finalY lower upper u n c, c + 2 * n) := by
  intro n
  induction n with
  | zero =>
      intro c fx fy
      simp [sampleLoop, finalX, finalY]
  | succ n ih =>
      intro c fx fy
      rw [sampleLoop, ih]
      have hx : finalX lower upper u (n + 1) c =
          uniform lower upper (u c) + finalX lower upper u n (c + 2) := by
        rw [finalX, finalX, Finset.sum_range_succ']
        have : ∀ j : ℕ, c + 2 * (j + 1) = c + 2 + 2 * j := by omega
        simp only [this]
        simp [add_comm]
      have hy : finalY lower upper u (n + 1) c =
          uniform lower upper (u (c + 1)) + finalY lower upper u n (c + 2) := by
        rw [finalY, finalY, Finset.sum_range_succ']
        have : ∀ j : ℕ, c + 2 * (j + 1) + 1 = c + 2 + 2 * j + 1 := by omega
        simp only [this]
        simp [add_comm]
      rw [hx, hy]
      simp only [Prod.mk.injEq]
      refine ⟨by ring, by ring, by omega⟩

theorem iterLoop_eq (lower upper : ℝ) (u : ℕ → ℝ) (samples : ℕ) :
    ∀ (r c : ℕ) (iteration : ℤ),
      iterLoop lower upper u samples c iteration r =
        (List.range r).map
          (fun k => mkRecord lower upper u samples (c + 2 * samples * k) (iteration + k)) := by
  intro r
  induction r with
  | zero =>
      intro c iteration
      simp [iterLoop]
  | succ r ih =>
      intro c iteration
      rw [iterLoop, List.range_succ_eq_map, List.map_cons, List.map_map]
      simp only [sampleLoop_eq, zero_add]
      simp only [List.cons.injEq]
      refine ⟨?_, ?_⟩
      · simp [mkRecord]
      · rw [ih]
        refine List.map_congr_left ?_
        intro k _
        simp only [Function.comp_apply]
        have h1 : c + 2 * samples + 2 * samples * k = c + 2 * samples * (k + 1) := by ring
        have h2 : iteration + 1 + (k : ℤ) = iteration + ((k : ℕ) + 1 : ℕ) := by
          push_cast
          ring
        rw [h1, h2]

theorem generate_random_pairs_eq (iterations samples_per_iteration : ℤ)
    (value_range : ℝ × ℝ) (u : ℕ → ℝ) :
    generate_random_pairs iterations samples_per_iteration value_range u =
      (List.range iterations.toNat).map
        (fun k => mkRecord value_range.1 value_range.2 u
          samples_per_iteration.toNat (2 * samples_per_iteration.toNat * k) (1 + k)) := by
  rw [generate_random_pairs, iterLoop_eq]
  simp

/-- `atan2 y y` only depends on the sign of `y`: it is `π/4` for
positive `y`, `-3π/4` for negative `y`, and `0` at `y = 0`. -/
theorem atan2_self (y : ℝ) :
    atan2 y y = if 0 < y then Real.pi / 4
      else if y < 0 then -(3 * Real.pi / 4) else 0 := by
  rcases lt_trichotomy y 0 with hneg | hzero | hpos
  · have hne : y ≠ 0 := ne_of_lt hneg
    rw [atan2]
    rw [if_neg (by linarith), if_pos hneg, if_neg (by linarith)]
    rw [div_self hne, Real.arctan_one]
    rw [if_neg (by linarith), if_pos hneg]
    ring
  · subst hzero
    rw [atan2]
    simp
  · have hne : y ≠ 0 := ne_of_gt hpos
    rw [atan2]
    rw [if_pos hpos, div_self hne, Real.arctan_one, if_pos hpos]

/-- Every record of the output is the closed-form record of some
iteration index `k < iterations.toNat`, whose draws start at stream
position `2 * samples * k`. -/
theorem mem_generate_random_pairs {iterations samples_per_iteration : ℤ}
    {value_range : ℝ × ℝ} {u : ℕ → ℝ} {p : IterationPairs}
    (hp : p ∈ generate_random_pairs iterations samples_per_iteration value_range u) :
    ∃ k : ℕ, k < iterations.toNat ∧
      p = mkRecord value_range.1 value_range.2 u samples_per_iteration.toNat
        (2 * samples_per_iteration.toNat * k) (1 + k) := by
  rw [generate_random_pairs_eq] at hp
  obtain ⟨k, hk, rfl⟩ := List.mem_map.mp hp
  exact ⟨k, List.mem_range.mp hk, rfl⟩

/-- Claim C1: every record produced by `generate_random_pairs` has
`angle = atan2 final_y final_y` (both arguments are `final_y`); hence
the angle is `π/4` when `final_y > 0`, `-3π/4` when `final_y < 0`, and
`0` when `final_y = 0`. -/
theorem claim_C1_angle_formula (iterations samples_per_iteration : ℤ)
    (value_range : ℝ × ℝ) (u : ℕ → ℝ) (p : IterationPairs)
    (hp : p ∈ generate_random_pairs iterations samples_per_iteration value_range u) :
    p.angle = atan2 p.final_y p.final_y ∧
    (0 < p.final_y → p.angle = Real.pi / 4) ∧
    (p.final_y < 0 → p.angle = -(3 * Real.pi / 4)) ∧
    (p.final_y = 0 → p.angle = 0) := by
  obtain ⟨k, -, rfl⟩ := mem_generate_random_pairs hp
  simp only [mkRecord]
  refine ⟨trivial, ?_, ?_, ?_⟩ <;> intro h <;> rw [atan2_self]
  · rw [if_pos h]
  · rw [if_neg (by linarith), if_pos h]
  · rw [h]
    simp

/-- Claim C4: every record produced by `generate_random_pairs` has
`radius = sqrt (final_x² + final_y²)`, the Euclidean norm of the
summed pair (exactly, in the real-number model). -/
theorem claim_C4_radius_formula (iterations samples_per_iteration : ℤ)
    (value_range : ℝ × ℝ) (u : ℕ → ℝ) (p : IterationPairs)
    (hp : p ∈ generate_random_pairs iterations samples_per_iteration value_range u) :
    p.radius = Real.sqrt (p.final_x ^ 2 + p.final_y ^ 2) := by
  obtain ⟨k, -, rfl⟩ := mem_generate_random_pairs hp
  simp only [mkRecord, hypot]

/-- Claim C10: every record produced by `generate_random_pairs` has a
nonnegative radius. -/
theorem claim_C10_radius_nonneg (iterations samples_per_iteration : ℤ)
    (value_range : ℝ × ℝ) (u : ℕ → ℝ) (p : IterationPairs)
    (hp : p ∈ generate_random_pairs iterations samples_per_iteration value_range u) :
    0 ≤ p.radius := by
  obtain ⟨k, -, rfl⟩ := mem_generate_random_pairs hp
  simp only [mkRecord, hypot]
  exact Real.sqrt_nonneg _

/-- Claim C8: with `samples_per_iteration = 0` (and positive
`iterations`) every produced record has `final_x = 0`, `final_y = 0`,
`radius = 0`, and `angle = atan2 0 0 = 0`. -/
theorem claim_C8_zero_samples (iterations : ℤ) (value_range : ℝ × ℝ)
    (u : ℕ → ℝ) (hit : 0 < iterations) (p : IterationPairs)
    (hp : p ∈ generate_random_pairs iterations 0 value_range u) :
    p.final_x = 0 ∧ p.final_y = 0 ∧ p.radius = 0 ∧ p.angle = 0 := by
  obtain ⟨k, -, rfl⟩ := mem_generate_random_pairs hp
  simp only [mkRecord, finalX, finalY, hypot]
  norm_num [atan2_self]

/-- Claim C3: for every valid configuration (`iterations > 0`,
`samples_per_iteration > 0`, `lower < upper`) the output has exactly
`iterations` records, and the record at 0-based index `k` (1-based
position `k + 1`) carries iteration field `k + 1`: the indices are
sequential from 1 with no gaps. -/
theorem claim_C3_length_iterations (iterations samples_per_iteration : ℤ)
    (value_range : ℝ × ℝ) (u : ℕ → ℝ) (hit : 0 < iterations)
    (hs : 0 < samples_per_iteration) (hlu : value_range.1 < value_range.2) :
    ((generate_random_pairs iterations samples_per_iteration value_range u).length : ℤ)
        = iterations ∧
    ∀ (k : ℕ) (hk : k <
        (generate_random_pairs iterations samples_per_iteration value_range u).length),
      ((generate_random_pairs iterations samples_per_iteration value_range u).get
        ⟨k, hk⟩).iteration = (k : ℤ) + 1 := by
  have heq := generate_random_pairs_eq iterations samples_per_iteration value_range u
  constructor
  · rw [heq]
    simp [Int.toNat_of_nonneg hit.le]
  · intro k hk
    rw [List.get_eq_getElem]
    simp only [heq, List.getElem_map, List.getElem_range, mkRecord]
    ring

/-- Claim C5: the record at index `k` has `final_x` equal to the sum,
starting from 0, of the `samples_per_iteration` x-draws and `final_y`
the sum of the y-draws, each draw uniform over `[lower, upper)`;
repetition `j` of that iteration takes its x from stream draw
`2*samples*k + 2*j` and its y from the draw immediately following it,
so the stream is consumed alternating x, y, x, y, …, the x of each
repetition strictly before its y. -/
theorem claim_C5_sum_of_draws (iterations samples_per_iteration : ℤ)
    (value_range : ℝ × ℝ) (u : ℕ → ℝ) (k : ℕ)
    (hk : k <
      (generate_random_pairs iterations samples_per_iteration value_range u).length) :
    ((generate_random_pairs iterations samples_per_iteration value_range u).get
        ⟨k, hk⟩).final_x =
      ∑ j ∈ Finset.range samples_per_iteration.toNat,
        uniform value_range.1 value_range.2
          (u (2 * samples_per_iteration.toNat * k + 2 * j)) ∧
    ((generate_random_pairs iterations samples_per_iteration value_range u).get
        ⟨k, hk⟩).final_y =
      ∑ j ∈ Finset.range samples_per_iteration.toNat,
        uniform value_range.1 value_range.2
          (u (2 * samples_per_iteration.toNat * k + 2 * j + 1)) := by
  have heq := generate_random_pairs_eq iterations samples_per_iteration value_range u
  constructor <;>
  · rw [List.get_eq_getElem]
    simp only [heq, List.getElem_map, List.getElem_range, mkRecord, finalX, finalY]

/-- Claim C6: determinism.  The output is a pure function of the
configuration and of the seeded generator's draws: two runs whose
generators return the same unit draws — as two `random.Random(seed)`
instances with the same seed do — produce identical record sequences.
Stated sharply: the output depends only on the first
`2 * samples_per_iteration * iterations` draws of the stream. -/
theorem claim_C6_deterministic (iterations samples_per_iteration : ℤ)
    (value_range : ℝ × ℝ) (u1 u2 : ℕ → ℝ)
    (h : ∀ n, n < 2 * samples_per_iteration.toNat * iterations.toNat → u1 n = u2 n) :
    generate_random_pairs iterations samples_per_iteration value_range u1 =
      generate_random_pairs iterations samples_per_iteration value_range u2 := by
  rw [generate_random_pairs_eq, generate_random_pairs_eq]
  refine List.map_congr_left ?_
  intro k hk
  rw [List.mem_range] at hk
  have hidx : ∀ j, j < samples_per_iteration.toNat →
      2 * samples_per_iteration.toNat * k + 2 * j + 1 <
        2 * samples_per_iteration.toNat * iterations.toNat := by
    intro j hj
    have h1 : 2 * samples_per_iteration.toNat * k + 2 * j + 1 <
        2 * samples_per_iteration.toNat * (k + 1) := by
      have h2 : 2 * samples_per_iteration.toNat * (k + 1) =
          2 * samples_per_iteration.toNat * k + 2 * samples_per_iteration.toNat := by
        ring
      omega
    have h3 : 2 * samples_per_iteration.toNat * (k + 1) ≤
        2 * samples_per_iteration.toNat * iterations.toNat :=
      Nat.mul_le_mul_left _ (by omega)
    omega
  have hX : finalX value_range.1 value_range.2 u1 samples_per_iteration.toNat
      (2 * samples_per_iteration.toNat * k) =
      finalX value_range.1 value_range.2 u2 samples_per_iteration.toNat
      (2 * samples_per_iteration.toNat * k) := by
    unfold finalX
    refine Finset.sum_congr rfl ?_
    intro j hj
    rw [h _ (by have := hidx j (Finset.mem_range.mp hj); omega)]
  have hY : finalY value_range.1 value_range.2 u1 samples_per_iteration.toNat
      (2 * samples_per_iteration.toNat * k) =
      finalY value_range.1 value_range.2 u2 samples_per_iteration.toNat
      (2 * samples_per_iteration.toNat * k) := by
    unfold finalY
    refine Finset.sum_congr rfl ?_
    intro j hj
    rw [h _ (hidx j (Finset.mem_range.mp hj))]
  unfold mkRecord
  rw [hX, hY]

/-- Sum of `s` uniform draws over `[0, upper)` (at arbitrary stream
positions `g j`): nonnegative and, for `s ≥ 1`, strictly below
`s * upper`. -/
theorem sum_uniform_bounds (upper : ℝ) (hup : 0 < upper) (u : ℕ → ℝ)
    (hu : ∀ n, 0 ≤ u n ∧ u n < 1) (s : ℕ) (hs : 0 < s) (g : ℕ → ℕ) :
    0 ≤ ∑ j ∈ Finset.range s, uniform 0 upper (u (g j)) ∧
      ∑ j ∈ Finset.range s, uniform 0 upper (u (g j)) < s * upper := by
  constructor
  · refine Finset.sum_nonneg ?_
    intro j _
    have h1 := (hu (g j)).1
    simp only [uniform]
    nlinarith
  · have hlt : ∑ j ∈ Finset.range s, uniform 0 upper (u (g j)) <
        ∑ _j ∈ Finset.range s, upper := by
      refine Finset.sum_lt_sum_of_nonempty (Finset.nonempty_range_iff.mpr hs.ne') ?_
      intro j _
      have h1 := (hu (g j)).1
      have h2 := (hu (g j)).2
      simp only [uniform]
      nlinarith
    have hsum : ∑ _j ∈ Finset.range s, upper = s * upper := by
      rw [Finset.sum_const, Finset.card_range, nsmul_eq_mul]
    linarith

/-- Claim C7: with `lower = 0`, `upper > 0`, a genuine unit stream
(every draw in `[0, 1)`) and a positive `samples_per_iteration`, every
record's `final_x` and `final_y` lie in
`[0, samples_per_iteration * upper)`. -/
theorem claim_C7_bounds (iterations samples_per_iteration : ℤ) (upper : ℝ)
    (u : ℕ → ℝ) (hs : 0 < samples_per_iteration) (hup : 0 < upper)
    (hu : ∀ n, 0 ≤ u n ∧ u n < 1) (p : IterationPairs)
    (hp : p ∈ generate_random_pairs iterations samples_per_iteration (0, upper) u) :
    (0 ≤ p.final_x ∧ p.final_x < (samples_per_iteration : ℝ) * upper) ∧
    (0 ≤ p.final_y ∧ p.final_y < (samples_per_iteration : ℝ) * upper) := by
  obtain ⟨k, -, rfl⟩ := mem_generate_random_pairs hp
  have hsn : 0 < samples_per_iteration.toNat := by omega
  have hcast : ((samples_per_iteration.toNat : ℕ) : ℝ) = (samples_per_iteration : ℝ) := by
    exact_mod_cast congrArg (fun z : ℤ => (z : ℝ)) (Int.toNat_of_nonneg hs.le)
  constructor
  · have hb := sum_uniform_bounds upper hup u hu samples_per_iteration.toNat hsn
      (fun j => 2 * samples_per_iteration.toNat * k + 2 * j)
    simp only [mkRecord, finalX]
    rw [← hcast]
    exact hb
  · have hb := sum_uniform_bounds upper hup u hu samples_per_iteration.toNat hsn
      (fun j => 2 * samples_per_iteration.toNat * k + 2 * j + 1)
    simp only [mkRecord, finalY]
    rw [← hcast]
    exact hb

/-- Claim C2 as the spec states it is false on the code: the body of
`generate_random_pairs` contains no validation and no `raise`, so a
call with `iterations = 0` (which the spec says must fail with
`InvalidArgument`) returns normally with the empty list. -/
theorem claim_C2_counterexample :
    generate_random_pairs_call 0 3 ((0 : ℝ), 5) (fun _ => 0) = Except.ok [] ∧
    generate_random_pairs_call 0 3 ((0 : ℝ), 5) (fun _ => 0) ≠
      Except.error PyError.invalidArgument := by
  have h : generate_random_pairs 0 3 ((0 : ℝ), 5) (fun _ => 0) = [] := by
    rw [generate_random_pairs_eq]
    simp
  refine ⟨?_, ?_⟩
  · rw [generate_random_pairs_call, h]
  · rw [generate_random_pairs_call]
    simp

/-- Claim C2 amended: `generate_random_pairs` performs no argument
validation and never raises — every call returns normally; in
particular with `iterations ≤ 0` it returns the empty sequence (and,
the output depending only on the consumed draws, no draw is consumed:
see `claim_C6_deterministic` for the dependence bound, which is `0`
draws when `iterations ≤ 0`). -/
theorem claim_C2_no_validation (iterations samples_per_iteration : ℤ)
    (value_range : ℝ × ℝ) (u : ℕ → ℝ) :
    (∀ e : PyError,
      generate_random_pairs_call iterations samples_per_iteration value_range u ≠
        Except.error e) ∧
    (iterations ≤ 0 →
      generate_random_pairs_call iterations samples_per_iteration value_range u =
        Except.ok []) := by
  constructor
  · intro e he
    rw [generate_random_pairs_call] at he
    exact Except.noConfusion he
  · intro h
    rw [generate_random_pairs_call, generate_random_pairs_eq]
    simp [Int.toNat_of_nonpos h]

/-- Claim C9: `write_pairs_to_csv` emits one header row naming the
five fields, then exactly one row per record in input (generation)
order: the row for the record at index `k` sits at row index `k + 1`
and holds the iteration index verbatim followed by the four float
fields, each formatted fixed-point with exactly 10 fractional
digits. -/
theorem claim_C9_csv_layout (pairs : List IterationPairs) :
    (write_pairs_to_csv pairs).length = pairs.length + 1 ∧
    (write_pairs_to_csv pairs).head? =
      some [CsvField.str "iteration", CsvField.str "cartesian_x",
        CsvField.str "cartesian_y", CsvField.str "polar_radius",
        CsvField.str "polar_angle"] ∧
    ∀ (k : ℕ), k < pairs.length →
      (write_pairs_to_csv pairs)[k + 1]? =
        some [CsvField.int (pairs.getD k ⟨0, 0, 0, 0, 0⟩).iteration,
          CsvField.fixed (pairs.getD k ⟨0, 0, 0, 0, 0⟩).final_x 10,
          CsvField.fixed (pairs.getD k ⟨0, 0, 0, 0, 0⟩).final_y 10,
          CsvField.fixed (pairs.getD k ⟨0, 0, 0, 0, 0⟩).radius 10,
          CsvField.fixed (pairs.getD k ⟨0, 0, 0, 0, 0⟩).angle 10] := by
  refine ⟨?_, ?_, ?_⟩
  · simp [write_pairs_to_csv]
  · simp [write_pairs_to_csv, csvHeader]
  · intro k hk
    rw [write_pairs_to_csv]
    rw [List.getElem?_cons_succ, List.getElem?_map]
    rw [List.getElem?_eq_getElem hk]
    rw [List.getD_eq_getElem _ _ hk]
    simp [recordRow]

/-- Concrete evaluation: one iteration of one sample on the all-zero
unit stream over `[0, 5)` yields the single record `⟨1, 0, 0, 0, 0⟩`. -/
theorem gen_one_zero_stream :
    generate_random_pairs 1 1 ((0 : ℝ), 5) (fun _ => 0) =
      [⟨1, 0, 0, 0, 0⟩] := by
  rw [generate_random_pairs_eq]
  norm_num [List.range_succ, mkRecord, finalX, finalY, uniform, hypot,
    atan2_self, Finset.sum_range_one, IterationPairs.mk.injEq, Real.sqrt_zero]

/-- Concrete evaluation: one iteration of zero samples also yields the
single record `⟨1, 0, 0, 0, 0⟩` (empty sums). -/
theorem gen_one_zero_samples :
    generate_random_pairs 1 0 ((0 : ℝ), 5) (fun _ => 0) =
      [⟨1, 0, 0, 0, 0⟩] := by
  rw [generate_random_pairs_eq]
  norm_num [List.range_succ, mkRecord, finalX, finalY, hypot,
    atan2_self, IterationPairs.mk.injEq, Real.sqrt_zero]

theorem claim_C1_witness :
    (⟨1, 0, 0, 0, 0⟩ : IterationPairs) ∈
        generate_random_pairs 1 1 ((0 : ℝ), 5) (fun _ => 0) ∧
    (⟨1, 0, 0, 0, 0⟩ : IterationPairs).angle =
      atan2 (⟨1, 0, 0, 0, 0⟩ : IterationPairs).final_y
        (⟨1, 0, 0, 0, 0⟩ : IterationPairs).final_y := by
  have hmem : (⟨1, 0, 0, 0, 0⟩ : IterationPairs) ∈
      generate_random_pairs 1 1 ((0 : ℝ), 5) (fun _ => 0) := by
    rw [gen_one_zero_stream]
    exact List.mem_singleton.mpr rfl
  exact ⟨hmem, (claim_C1_angle_formula 1 1 ((0 : ℝ), 5) (fun _ => 0) _ hmem).1⟩

theorem claim_C2_witness :
    generate_random_pairs_call (-1) 2 ((0 : ℝ), 1) (fun _ => 0) = Except.ok [] ∧
    (∀ e : PyError,
      generate_random_pairs_call (-1) 2 ((0 : ℝ), 1) (fun _ => 0) ≠
        Except.error e) := by
  have h := claim_C2_no_validation (-1) 2 ((0 : ℝ), 1) (fun _ => 0)
  exact ⟨h.2 (by norm_num), h.1⟩

theorem claim_C3_witness :
    (0 : ℤ) < 1 ∧ ((0 : ℝ), (5 : ℝ)).1 < ((0 : ℝ), (5 : ℝ)).2 ∧
    ((generate_random_pairs 1 1 ((0 : ℝ), 5) (fun _ => 0)).length : ℤ) = 1 := by
  refine ⟨by norm_num, by norm_num, ?_⟩
  exact (claim_C3_length_iterations 1 1 ((0 : ℝ), 5) (fun _ => 0)
    (by norm_num) (by norm_num) (by norm_num)).1

theorem claim_C4_witness :
    (⟨1, 0, 0, 0, 0⟩ : IterationPairs) ∈
        generate_random_pairs 1 1 ((0 : ℝ), 5) (fun _ => 0) ∧
    (⟨1, 0, 0, 0, 0⟩ : IterationPairs).radius =
      Real.sqrt ((⟨1, 0, 0, 0, 0⟩ : IterationPairs).final_x ^ 2 +
        (⟨1, 0, 0, 0, 0⟩ : IterationPairs).final_y ^ 2) := by
  have hmem : (⟨1, 0, 0, 0, 0⟩ : IterationPairs) ∈
      generate_random_pairs 1 1 ((0 : ℝ), 5) (fun _ => 0) := by
    rw [gen_one_zero_stream]
    exact List.mem_singleton.mpr rfl
  exact ⟨hmem, claim_C4_radius_formula 1 1 ((0 : ℝ), 5) (fun _ => 0) _ hmem⟩

theorem claim_C5_witness :
    0 < (generate_random_pairs 1 1 ((0 : ℝ), 5) (fun _ => 0)).length ∧
    (⟨1, 0, 0, 0, 0⟩ : IterationPairs).final_x =
      ∑ j ∈ Finset.range (1 : ℤ).toNat,
        uniform ((0 : ℝ), (5 : ℝ)).1 ((0 : ℝ), (5 : ℝ)).2
          ((fun _ => (0 : ℝ)) (2 * (1 : ℤ).toNat * 0 + 2 * j)) := by
  have hk : 0 < (generate_random_pairs 1 1 ((0 : ℝ), 5) (fun _ => 0)).length := by
    rw [gen_one_zero_stream]
    norm_num
  have h := claim_C5_sum_of_draws 1 1 ((0 : ℝ), 5) (fun _ => 0) 0 hk
  have hget : (generate_random_pairs 1 1 ((0 : ℝ), 5) (fun _ => 0)).get ⟨0, hk⟩ =
      (⟨1, 0, 0, 0, 0⟩ : IterationPairs) := by
    rw [List.get_of_eq gen_one_zero_stream]
    rfl
  refine ⟨hk, ?_⟩
  rw [← hget]
  exact h.1

theorem claim_C6_witness :
    generate_random_pairs 2 1 ((0 : ℝ), 5) (fun _ => 0) =
      generate_random_pairs 2 1 ((0 : ℝ), 5)
        (fun n => if n < 4 then 0 else 1) := by
  refine claim_C6_deterministic 2 1 ((0 : ℝ), 5) _ _ ?_
  intro n hn
  have h4 : n < 4 := by simpa using hn
  simp [h4]

theorem claim_C7_witness :
    (0 ≤ (⟨1, 0, 0, 0, 0⟩ : IterationPairs).final_x ∧
      (⟨1, 0, 0, 0, 0⟩ : IterationPairs).final_x < ((1 : ℤ) : ℝ) * 5) ∧
    (0 ≤ (⟨1, 0, 0, 0, 0⟩ : IterationPairs).final_y ∧
      (⟨1, 0, 0, 0, 0⟩ : IterationPairs).final_y < ((1 : ℤ) : ℝ) * 5) := by
  have hmem : (⟨1, 0, 0, 0, 0⟩ : IterationPairs) ∈
      generate_random_pairs 1 1 ((0 : ℝ), 5) (fun _ => 0) := by
    rw [gen_one_zero_stream]
    exact List.mem_singleton.mpr rfl
  exact claim_C7_bounds 1 1 5 (fun _ => 0) (by norm_num) (by norm_num)
    (fun n => by norm_num) _ hmem

theorem claim_C8_witness :
    (⟨1, 0, 0, 0, 0⟩ : IterationPairs) ∈
        generate_random_pairs 1 0 ((0 : ℝ), 5) (fun _ => 0) ∧
    ((⟨1, 0, 0, 0, 0⟩ : IterationPairs).final_x = 0 ∧
      (⟨1, 0, 0, 0, 0⟩ : IterationPairs).final_y = 0 ∧
      (⟨1, 0, 0, 0, 0⟩ : IterationPairs).radius = 0 ∧
      (⟨1, 0, 0, 0, 0⟩ : IterationPairs).angle = 0) := by
  have hmem : (⟨1, 0, 0, 0, 0⟩ : IterationPairs) ∈
      generate_random_pairs 1 0 ((0 : ℝ), 5) (fun _ => 0) := by
    rw [gen_one_zero_samples]
    exact List.mem_singleton.mpr rfl
  exact ⟨hmem, claim_C8_zero_samples 1 ((0 : ℝ), 5) (fun _ => 0)
    (by norm_num) _ hmem⟩

theorem claim_C9_witness :
    (write_pairs_to_csv [⟨1, 0, 0, 0, 0⟩]).length = 2 ∧
    (write_pairs_to_csv [⟨1, 0, 0, 0, 0⟩])[1]? =
      some [CsvField.int 1, CsvField.fixed 0 10, CsvField.fixed 0 10,
        CsvField.fixed 0 10, CsvField.fixed 0 10] := by
  have h := claim_C9_csv_layout [⟨1, 0, 0, 0, 0⟩]
  refine ⟨h.1, ?_⟩
  have h2 := h.2.2 0 (by norm_num)
  simpa using h2

theorem claim_C10_witness :
    (⟨1, 0, 0, 0, 0⟩ : IterationPairs) ∈
        generate_random_pairs 1 1 ((0 : ℝ), 5) (fun _ => 0) ∧
    0 ≤ (⟨1, 0, 0, 0, 0⟩ : IterationPairs).radius := by
  have hmem : (⟨1, 0, 0, 0, 0⟩ : IterationPairs) ∈
      generate_random_pairs 1 1 ((0 : ℝ), 5) (fun _ => 0) := by
    rw [gen_one_zero_stream]
    exact List.mem_singleton.mpr rfl
  exact ⟨hmem, claim_C10_radius_nonneg 1 1 ((0 : ℝ), 5) (fun _ => 0) _ hmem⟩

end TestAlgo
